import Mathlib

/-!
# newgodoc: document-model construction, cross-reference index, output check

A shallow embedding of `src/main.go` (functions `cliParse`, `ModuleParse`,
`ParseTypeDecl`, `main`).

Conventions of the embedding

* A Go `map[K]V` is an association list in the iteration order the run
  happened to use; `mapGet` / `mapSet` are lookup and assignment.
* A run that panics or calls `os.Exit` is an `Except.error` carrying a `Halt`.
* The external collaborators (godoc index, page data, file system) are fields
  of an environment record; the values they return are inputs of the model.
* Pointers to freshly allocated records become values; the back-reference
  `PackageDoc.ParentModule` is a cycle in the heap and is left out.
* The identifier index is the one `c.CurrentIndex()` holds after the wait of
  line 88; the race with the indexer and a nil index are outside the model.
* Printing (`fmt.Red`, `fmt.Debug`, ...) changes no state and is left out.
-/

namespace Newgodoc

/-! ## Run-time outcomes -/

/-- How a run stops early: a Go run-time panic, or `os.Exit(code)`. -/
inductive Halt where
  | panic (msg : String)
  | exit (code : Nat)
  deriving DecidableEq, Repr

/-! ## Go maps as association lists -/

/-- Lookup `m[k]`; `none` when the key is absent. -/
def mapGet {ν : Type} : List (String × ν) → String → Option ν
  | [], _ => none
  | (k', v) :: rest, k => if k' = k then some v else mapGet rest k

/-- Assignment `m[k] = v`: overwrite the entry of `k` or add one. -/
def mapSet {ν : Type} : List (String × ν) → String → ν → List (String × ν)
  | [], k, v => [(k, v)]
  | (k', v') :: rest, k, v =>
    if k' = k then (k, v) :: rest else (k', v') :: mapSet rest k v

/-- The keys of a map, in iteration order. -/
def mapKeys {ν : Type} (m : List (String × ν)) : List String := m.map (·.1)

/-! ## The godoc identifier index (external collaborator) -/

/-- The `godoc.SpotKind` values below `nKinds`. -/
inductive SpotKind where
  | PackageClause
  | ImportDecl
  | ConstDecl
  | TypeDecl
  | VarDecl
  | FuncDecl
  | MethodDecl
  | Use
  deriving DecidableEq, Repr

/-- The `SpotKind.Name()` table of godoc. -/
def SpotKind.Name : SpotKind → String
  | .PackageClause => "Packages"
  | .ImportDecl => "Imports"
  | .ConstDecl => "Constants"
  | .TypeDecl => "Types"
  | .VarDecl => "Variables"
  | .FuncDecl => "Functions"
  | .MethodDecl => "Methods"
  | .Use => "Uses"

/-- The record `godoc.Ident`. -/
structure Ident where
  Path : String
  Package : String
  Name : String
  Doc : String
  deriving DecidableEq, Repr

/-- The value of `idx.Idents()`: kind, then name, then the symbols filed
under that name. -/
abbrev Idents := List (SpotKind × List (String × List Ident))

/-! ## Cross-reference records -/

/-- The record `ScopedIdentifier` as `ModuleParse` fills it. -/
structure ScopedIdentifier where
  PackagePath : String
  Name : String
  IsFunction : Bool
  IsMethod : Bool
  isType : Bool
  deriving DecidableEq, Repr

/-- The map type `SimpleExportsByType`. -/
abbrev SimpleExportsByType := List (String × List ScopedIdentifier)

/-- Lines 102 and 101 of `ModuleParse`: for every list of the `Packages`
bucket, `pkgList[sym[0].Path] = sym[0].Name`; indexing an empty list panics. -/
def scanPackages (pkgList : List (String × String)) :
    List (String × List Ident) → Except Halt (List (String × String))
  | [] => .ok pkgList
  | (_, sym) :: rest =>
    match sym with
    | [] => .error (.panic "index out of range [0] with length 0")
    | sym0 :: _ => scanPackages (mapSet pkgList sym0.Path sym0.Name) rest

/-- Lines 106 to 115: one `ScopedIdentifier` appended under `name` for each
symbol of `symTable`. -/
def appendSymTable (kind : SpotKind) (name : String) (exports : SimpleExportsByType) :
    List Ident → SimpleExportsByType
  | [] => exports
  | symbol :: rest =>
    let scopedId : ScopedIdentifier :=
      { PackagePath := symbol.Path
        Name := name
        IsFunction := kind == SpotKind.FuncDecl
        IsMethod := kind == SpotKind.MethodDecl
        isType := kind == SpotKind.TypeDecl }
    appendSymTable kind name
      (mapSet exports name ((mapGet exports name).getD [] ++ [scopedId])) rest

/-- Lines 105 to 116: the loop over the names of one kind bucket. -/
def appendSymbols (kind : SpotKind) (exports : SimpleExportsByType) :
    List (String × List Ident) → SimpleExportsByType
  | [] => exports
  | (name, symTable) :: rest =>
    appendSymbols kind (appendSymTable kind name exports symTable) rest

/-- Lines 98 to 118: the loop over `idx.Idents()`, carrying `pkgList` and
`parsedModuleDoc.SimpleExports`. -/
def scanIdents (pkgList : List (String × String)) (exports : SimpleExportsByType) :
    Idents → Except Halt (List (String × String) × SimpleExportsByType)
  | [] => .ok (pkgList, exports)
  | (kind, symbols) :: rest =>
    if kind.Name = "Packages" then
      match scanPackages pkgList symbols with
      | .error e => .error e
      | .ok pkgList' => scanIdents pkgList' exports rest
    else
      scanIdents pkgList (appendSymbols kind exports symbols) rest

/-! ## Path functions of the Go standard library (Unix) -/

/-- Cut a path at every separator; `cur` holds the current element reversed. -/
def splitSep : List Char → List Char → List (List Char)
  | [], cur => [cur.reverse]
  | c :: rest, cur =>
    if c = '/' then cur.reverse :: splitSep rest [] else splitSep rest (c :: cur)

/-- One element of the lexical cleaning of `filepath.Clean`; `out` is the
stack of kept elements, last first. -/
def cleanStep (rooted : Bool) (out : List (List Char)) (el : List Char) : List (List Char) :=
  if el = [] ∨ el = ['.'] then out
  else if el = ['.', '.'] then
    match out with
    | [] => if rooted then [] else [el]
    | last :: before => if last = ['.', '.'] then el :: out else before
  else el :: out

/-- The function `filepath.Clean`. -/
def Clean (path : String) : String :=
  let rooted : Bool := path.toList.head? == some '/'
  let out := (splitSep path.toList []).foldl (cleanStep rooted) []
  let body : List Char := List.intercalate ['/'] out.reverse
  if rooted then ⟨'/' :: body⟩ else if body = [] then "." else ⟨body⟩

/-- The function `filepath.IsAbs`. -/
def IsAbs (path : String) : Bool := path.toList.head? == some '/'

/-- The function `filepath.Join` at two elements: empty elements are ignored,
the rest is joined by the separator and cleaned. -/
def Join (a b : String) : String :=
  if a ≠ "" then Clean (a ++ "/" ++ b) else if b ≠ "" then Clean b else ""

/-- Drop the last element of a reversed path up to the last separator. -/
def dropLastElem : List Char → List Char
  | [] => []
  | c :: rest => if c = '/' then c :: rest else dropLastElem rest

/-- The function `filepath.Dir`. -/
def Dir (path : String) : String := Clean ⟨(dropLastElem path.toList.reverse).reverse⟩

/-- The scan of `filepath.Ext` over the reversed path; `acc` is the suffix
read so far. -/
def extScan : List Char → List Char → List Char
  | [], _ => []
  | c :: rest, acc =>
    if c = '/' then [] else if c = '.' then c :: acc else extScan rest (c :: acc)

/-- The function `filepath.Ext`: the suffix of the last element from its
last dot on, empty without a dot. -/
def Ext (path : String) : String := ⟨extScan path.toList.reverse []⟩

/-- The call `strings.TrimPrefix(path, "/")`. -/
def TrimPrefix (path : String) : String :=
  match path.toList with
  | '/' :: rest => ⟨rest⟩
  | _ => path

/-! ## Syntax trees and page data (go/ast, go/doc, godoc) -/

/-- Type expressions of `go/ast`; a field is its names with its type. -/
inductive Expr where
  | Ident (Name : String)
  | StarExpr (X : Expr)
  | ArrayType (Elt : Expr)
  | MapType (Key Value : Expr)
  | ChanType (Value : Expr)
  | SelectorExpr (X : Expr) (Sel : String)
  | ParenExpr (X : Expr)
  | FuncType (Pos : Nat) (Params Results : List (List String × Expr))
  | StructType (Pos : Nat) (Fields : List (List String × Expr))
  | InterfaceType (Pos : Nat) (Methods : List (List String × Expr))

/-- A field of `go/ast`. -/
abbrev Field := List String × Expr

/-- The node `*ast.StructType`. -/
structure StructType where
  Pos : Nat
  Fields : List Field

/-- The node `*ast.InterfaceType`. -/
structure InterfaceType where
  Pos : Nat
  Methods : List Field

/-- The node `*ast.FuncDecl`. -/
structure FuncDecl where
  Pos : Nat
  Name : String
  Params : List Field
  Results : List Field

/-- The interface `ast.Spec` with its three implementations. -/
inductive Spec where
  | ImportSpec (Path : String)
  | ValueSpec (Names : List String)
  | TypeSpec (Name : String) (Typ : Expr)

/-- The node `*ast.GenDecl`. -/
structure GenDecl where
  Pos : Nat
  Specs : List Spec

/-- The nodes handed to the snippet and provenance helpers. -/
inductive Node where
  | StructType (st : StructType)
  | InterfaceType (it : InterfaceType)
  | FuncDecl (fn : FuncDecl)

/-- The record `doc.Func`. -/
structure DocFunc where
  Doc : String
  Name : String
  Decl : FuncDecl

/-- The record `doc.Value`. -/
structure DocValue where
  Doc : String
  Names : List String
  Decl : GenDecl

/-- The record `doc.Type`; `Funcs` holds the functions go/doc associates
with the type (those returning it), `Methods` its methods. -/
structure DocType where
  Doc : String
  Name : String
  Decl : GenDecl
  Consts : List DocValue
  Vars : List DocValue
  Funcs : List DocFunc
  Methods : List DocFunc

/-- The record `doc.Package`. -/
structure DocPackage where
  Doc : String
  Name : String
  Consts : List DocValue
  Types : List DocType
  Vars : List DocValue
  Funcs : List DocFunc

/-- One file of a `token.FileSet`: name, base offset, size. -/
structure TokenFile where
  Name : String
  Base : Nat
  Size : Nat
  deriving DecidableEq, Repr

/-- The position-lookup table `token.FileSet`. -/
structure FileSet where
  Files : List TokenFile
  deriving DecidableEq, Repr

/-- The record `godoc.PageInfo`; `PDoc` is a pointer and may be nil. -/
structure PageInfo where
  FSet : FileSet
  PDoc : Option DocPackage

/-! ## The document model -/

/-- Modelled from the spec: the type of `BaseDef.FoundInFile` is declared
outside `src/`; the spec gives it as file name plus line and column. The
default is Go's zero value. -/
structure SourceLoc where
  Filename : String := ""
  Line : Nat := 0
  Column : Nat := 0
  deriving DecidableEq, Repr, Inhabited

/-- Modelled from the spec: `BaseDef` is declared outside `src/`; declaration
name, rendered snippet and `FoundInFile`, the fields `main.go` assigns. -/
structure BaseDef where
  Name : String := ""
  Snippet : String := ""
  FoundInFile : SourceLoc := {}
  deriving DecidableEq, Repr, Inhabited

/-- Modelled from the spec: `StructDef` embeds `BaseDef` and keeps the struct
node in `Typ` (Go: `Type`, a reserved word here). -/
structure StructDef extends BaseDef where
  Typ : Option StructType := none

/-- Modelled from the spec: `InterfaceDef` embeds `BaseDef` and keeps the
interface node in `Typ` (Go: `Type`, a reserved word here). -/
structure InterfaceDef extends BaseDef where
  Typ : Option InterfaceType := none

/-- Modelled from the spec: `FunctionDef` embeds `BaseDef` and has the `Doc`
text `ModuleParse` assigns. -/
structure FunctionDef extends BaseDef where
  Doc : String := ""
  deriving DecidableEq, Repr, Inhabited

/-- Modelled from the spec: `PackageDoc` is declared outside `src/`; the
fields are those `ModuleParse` and `ParseTypeDecl` assign. The defaults are
the zero values of `new(PackageDoc)`. -/
structure PackageDoc where
  Name : String := ""
  RelativePath : String := ""
  AbsolutePath : String := ""
  Doc : String := ""
  FileSet : FileSet := ⟨[]⟩
  Structs : List StructDef := []
  Interfaces : List InterfaceDef := []
  Functions : List FunctionDef := []
  FileDecls : List (String × List BaseDef) := []

/-- Modelled from the spec: `ModuleDoc` is declared outside `src/`; the
fields are those `ModuleParse` assigns. -/
structure ModuleDoc where
  AbsolutePath : String := ""
  ImportPath : String := ""
  Packages : List PackageDoc := []
  SimpleExports : SimpleExportsByType := []

/-- The two helpers of the repository that `main.go` calls and `src/` does
not hold, taken as parameters. `CreateSnippet(node, pkg, words...)` returns
the rendered text. `GetDeclFile(node, def, pkg)` returns the provenance and
may record the declaration in the per-file grouping `pkg.FileDecls`, the one
part of the package it is given to change; its second component is the
grouping after the call. -/
structure Helpers where
  CreateSnippet : Node → PackageDoc → List String → String
  GetDeclFile : Node → BaseDef → PackageDoc → SourceLoc × List (String × List BaseDef)

/-- The function `ParseTypeDecl` (lines 181 to 212). The assertion
`s.(*ast.TypeSpec)` panics on any other spec; the assertions of lines 184 and
197 look at the node `t.Type` as it is written in the declaration, so a type
name or a parenthesised type is neither a struct nor an interface node; the
loops over fields and methods have empty bodies. -/
def ParseTypeDecl (H : Helpers) (s : Spec) (docPackage : PackageDoc) :
    Except Halt PackageDoc :=
  match s with
  | .TypeSpec declName type =>
    match type with
    | .StructType pos fields =>
      let st : StructType := ⟨pos, fields⟩
      let sDef : StructDef := {}
      let sDef := { sDef with
        Snippet := H.CreateSnippet (.StructType st) docPackage ["type ", declName, " "] }
      let sDef := { sDef with Name := declName }
      let sDef := { sDef with Typ := some st }
      let found := H.GetDeclFile (.StructType st) sDef.toBaseDef docPackage
      let docPackage := { docPackage with FileDecls := found.2 }
      let sDef := { sDef with FoundInFile := found.1 }
      .ok { docPackage with Structs := docPackage.Structs ++ [sDef] }
    | .InterfaceType pos methods =>
      let it : InterfaceType := ⟨pos, methods⟩
      let interDef : InterfaceDef := {}
      let found := H.GetDeclFile (.InterfaceType it) interDef.toBaseDef docPackage
      let docPackage := { docPackage with FileDecls := found.2 }
      let interDef := { interDef with FoundInFile := found.1 }
      let interDef := { interDef with Name := declName }
      let interDef := { interDef with Typ := some it }
      let interDef := { interDef with
        Snippet := H.CreateSnippet (.InterfaceType it) docPackage ["type ", declName, " "] }
      .ok { docPackage with Interfaces := docPackage.Interfaces ++ [interDef] }
    | _ => .ok docPackage
  | _ => .error (.panic "interface conversion: ast.Spec is not *ast.TypeSpec")

/-- Lines 141 to 143: `ParseTypeDecl` on every spec of one type declaration. -/
def parseSpecs (H : Helpers) (pkg : PackageDoc) : List Spec → Except Halt PackageDoc
  | [] => .ok pkg
  | spec :: rest =>
    match ParseTypeDecl H spec pkg with
    | .error e => .error e
    | .ok pkg' => parseSpecs H pkg' rest

/-- Lines 140 to 144: the loop over `info.PDoc.Types`. Only `tp.Decl.Specs`
is read. -/
def parseTypes (H : Helpers) (pkg : PackageDoc) : List DocType → Except Halt PackageDoc
  | [] => .ok pkg
  | tp :: rest =>
    match parseSpecs H pkg tp.Decl.Specs with
    | .error e => .error e
    | .ok pkg' => parseTypes H pkg' rest

/-- Lines 146 to 154: the loop over `info.PDoc.Funcs`. The value `parsedFn`
is appended to `Functions` on line 152; line 153 then assigns `FoundInFile`
in the local variable, of which the slice holds a copy made before. -/
def parseFuncs (H : Helpers) (pkg : PackageDoc) : List DocFunc → PackageDoc
  | [] => pkg
  | fn :: rest =>
    let parsedFn : FunctionDef := {}
    let parsedFn := { parsedFn with Snippet := H.CreateSnippet (.FuncDecl fn.Decl) pkg [] }
    let parsedFn := { parsedFn with Name := fn.Name }
    let parsedFn := { parsedFn with Doc := fn.Doc }
    let pkg := { pkg with Functions := pkg.Functions ++ [parsedFn] }
    let found := H.GetDeclFile (.FuncDecl fn.Decl) parsedFn.toBaseDef pkg
    let pkg := { pkg with FileDecls := found.2 }
    parseFuncs H pkg rest

/-- Lines 164 to 170: the loop over `info.PDoc.Consts` only prints, and
`constVal.Decl.Specs[0]` panics on an empty list. -/
def inspectConsts : List DocValue → Except Halt Unit
  | [] => .ok ()
  | constVal :: rest =>
    match constVal.Decl.Specs with
    | [] => .error (.panic "index out of range [0] with length 0")
    | _ :: _ => inspectConsts rest

/-- The external collaborators of `ModuleParse`: the identifier index of
the corpus, the page data per unit (`nil` is `none`), the file reader
(`none` is an error) and `modfile.ModulePath`. -/
structure Corpus where
  Idents : Idents
  GetPkgPageInfo : String → String → Option PageInfo
  ReadFile : String → Option String
  ModulePath : String → String

/-- Lines 123 to 176: the loop over `pkgList`, carrying
`parsedModuleDoc.Packages`. A unit without page data is skipped; a nil
`info.PDoc` panics on line 136. The loop over `Vars` only prints. Line 138
appends the pointer before the unit is filled in; the list holds the filled
unit at the end of the iteration, which is where the model appends it. -/
def parsePackages (C : Corpus) (H : Helpers) (modFilePath : String)
    (packages : List PackageDoc) : List (String × String) → Except Halt (List PackageDoc)
  | [] => .ok packages
  | (path, pkgName) :: rest =>
    match C.GetPkgPageInfo path pkgName with
    | none => parsePackages C H modFilePath packages rest
    | some info =>
      match info.PDoc with
      | none => .error (.panic "nil pointer dereference")
      | some pdoc =>
        let parsedPackage : PackageDoc :=
          { AbsolutePath := Join modFilePath (TrimPrefix path)
            FileSet := info.FSet
            RelativePath := path
            Name := pkgName
            Doc := pdoc.Doc }
        match parseTypes H parsedPackage pdoc.Types with
        | .error e => .error e
        | .ok withTypes =>
          let withFuncs := parseFuncs H withTypes pdoc.Funcs
          match inspectConsts pdoc.Consts with
          | .error e => .error e
          | .ok _ => parsePackages C H modFilePath (packages ++ [withFuncs]) rest

/-- The function `ModuleParse` (lines 73 to 179). The error of `os.ReadFile`
is assigned and not read; on error the buffer is nil, the empty text. -/
def ModuleParse (C : Corpus) (H : Helpers) (modFilePath : String) : Except Halt ModuleDoc :=
  let goModBuffer := (C.ReadFile (Join modFilePath "go.mod")).getD ""
  let modImportPath := C.ModulePath goModBuffer
  match scanIdents [] [] C.Idents with
  | .error e => .error e
  | .ok (pkgList, exports) =>
    match parsePackages C H modFilePath [] pkgList with
    | .error e => .error e
    | .ok packages =>
      .ok { AbsolutePath := modFilePath
            ImportPath := modImportPath
            Packages := packages
            SimpleExports := exports }

/-! ## Command line, output check and serving loop -/

/-- An entry of the output tree as `filepath.WalkDir` reports it: a
directory with the entries `os.ReadDir` lists, or anything else (regular
file, symbolic link, device). -/
inductive DirEntry where
  | file (name : String)
  | dir (name : String) (entries : List DirEntry)

/-- The method `d.Name()`. -/
def DirEntry.Name : DirEntry → String
  | .file name => name
  | .dir name _ => name

/-- The method `d.IsDir()`. -/
def DirEntry.IsDir : DirEntry → Bool
  | .file _ => false
  | .dir _ _ => true

mutual
/-- The recursion of `filepath.WalkDir` with the callback of lines 41 to 49:
`os.Exit(1)` at a non-directory whose path has an extension other than
`.html`, otherwise `nil`, so every entry of a directory is visited. -/
def walkDir (path : String) : DirEntry → Except Halt Unit
  | .file _ => if Ext path ≠ ".html" then .error (.exit 1) else .ok ()
  | .dir _ entries => walkDirs path entries
/-- The loop of `walkDir` over the entries of the directory at `path`. -/
def walkDirs (path : String) : List DirEntry → Except Halt Unit
  | [] => .ok ()
  | d1 :: rest =>
    match walkDir (Join path d1.Name) d1 with
    | .error e => .error e
    | .ok _ => walkDirs path rest
end

/-- The variable `Cli`. -/
structure CliArgs where
  Out : String := "dist"
  Module : String
  StartServer : Bool := false
  Open : Bool := false
  deriving DecidableEq, Repr

/-- What the process finds outside itself: the working directory (`none`
when `os.Getwd` fails), `os.Stat` (`none` is an error, otherwise whether the
path is a directory), the tree `filepath.WalkDir` sees at a root (`none` when
the root cannot be read), the corpus godoc builds at a module root, and
whether port 8080 can be bound. -/
structure World where
  Getwd : Option String
  Stat : String → Option Bool
  WalkTree : String → Option DirEntry
  CorpusAt : String → Corpus
  ListenOK : Bool

/-- The function `filepath.Abs`; `none` is the error of `os.Getwd`. -/
def Abs (W : World) (path : String) : Option String :=
  if IsAbs path then some (Clean path)
  else match W.Getwd with
    | none => none
    | some wd => some (Join wd path)

/-- The call `filepath.WalkDir(Cli.Out, ...)` of line 41; a root that cannot
be read reaches the callback with a nil entry, whose `IsDir` panics. -/
def WalkDir (W : World) (root : String) : Except Halt Unit :=
  match W.WalkTree root with
  | none => .error (.panic "nil pointer dereference")
  | some d => walkDir root d

/-- Lines 35 to 53 of `cliParse`: the check of the output path. -/
def checkOut (W : World) (out : String) : Except Halt Unit :=
  match W.Stat out with
  | none => .ok ()
  | some isDir => if !isDir then .error (.exit 1) else WalkDir W out

/-- Lines 57 to 66 of `cliParse`: the root handed to `ModuleParse`. The
error of `filepath.Abs` is overwritten by that of `os.Stat`; with it the
path is empty. -/
def moduleRoot (W : World) (module : String) : Except Halt String :=
  let absModPath := (Abs W module).getD ""
  match W.Stat absModPath with
  | none => .error (.exit 1)
  | some isDir => .ok (if !isDir then Dir module else absModPath)

/-- The effects the process has on the outside, in order. -/
inductive Event where
  | ModuleParse (root : String)
  | GenerateHTML (doc : Option ModuleDoc)
  | ServeFile (dir path : String)

/-- The global variables `Cli` and `_modDoc`, with the effects so far. -/
structure Process where
  Cli : CliArgs
  _modDoc : Option ModuleDoc
  Events : List Event

/-- The function `cliParse` (lines 27 to 69). -/
def cliParse (W : World) (H : Helpers) (cli : CliArgs) : Except Halt Process :=
  match Abs W cli.Out with
  | none => .error (.exit 1)
  | some cliOutputAbs =>
    let cli := { cli with Out := cliOutputAbs }
    match checkOut W cli.Out with
    | .error e => .error e
    | .ok _ =>
      match moduleRoot W cli.Module with
      | .error e => .error e
      | .ok mDirPath =>
        match ModuleParse (W.CorpusAt mDirPath) H mDirPath with
        | .error e => .error e
        | .ok doc =>
          .ok { Cli := cli, _modDoc := some doc, Events := [.ModuleParse mDirPath] }

/-- The function `main` up to the start of the server (lines 216 to 235):
`cliParse`, one `GenerateHTML(_modDoc)` and, in server mode, the bind of
port 8080, fatal when it fails. -/
def main (W : World) (H : Helpers) (cli : CliArgs) : Except Halt Process :=
  match cliParse W H cli with
  | .error e => .error e
  | .ok p =>
    let p := { p with Events := p.Events ++ [.GenerateHTML p._modDoc] }
    if p.Cli.StartServer && !W.ListenOK then .error (.exit 1) else .ok p

/-- The handler of lines 222 to 226 for one request: `GenerateHTML(_modDoc)`,
then the file server on `Cli.Out`. The first argument is the world at the
time of the request; the handler reads the global variables only. -/
def handleRoot (_W : World) (p : Process) (requestPath : String) : Process :=
  { p with Events := p.Events ++ [.GenerateHTML p._modDoc, .ServeFile p.Cli.Out requestPath] }

/-- The server handling the requests of a list one after the other, each in
the world of its time. -/
def serve (p : Process) : List (World × String) → Process
  | [] => p
  | (W, requestPath) :: rest => serve (handleRoot W p requestPath) rest

/-! ## Reference definitions, following the words of the specification -/

/-- The cross-reference record of one symbol entry filed under the name `n`
in the bucket `kind`: the path of the symbol, the name `n`, and the three
flags set exactly for the function, method and type buckets. -/
def scopedOf (kind : SpotKind) (n : String) (symbol : Ident) : ScopedIdentifier :=
  { PackagePath := symbol.Path
    Name := n
    IsFunction := decide (kind = .FuncDecl)
    IsMethod := decide (kind = .MethodDecl)
    isType := decide (kind = .TypeDecl) }

/-- One record per symbol entry filed under `n` in a bucket other than the
unit-name bucket, in index order. -/
def crossRefsOf (idx : Idents) (n : String) : List ScopedIdentifier :=
  idx.flatMap fun bucket =>
    if bucket.1 = SpotKind.PackageClause then []
    else bucket.2.flatMap fun named =>
      if named.1 = n then named.2.map (scopedOf bucket.1 n) else []

/-- The underlying type of a type expression, as the Go language defines it,
given the type declarations `decls` of the unit (name and declared type): a
type literal is its own underlying type, parentheses denote the type inside,
and a declared type name has the underlying type of the type it is declared
as. `fuel` bounds the chain of names; a predeclared or unknown name is its own
underlying type. -/
def underlying (decls : List (String × Expr)) : Nat → Expr → Expr
  | 0, type => type
  | fuel + 1, .ParenExpr x => underlying decls fuel x
  | fuel + 1, .Ident name =>
    match mapGet decls name with
    | some declared => underlying decls fuel declared
    | none => .Ident name
  | _ + 1, type => type

/-- Whether a type expression is a struct type. -/
def Expr.isStruct : Expr → Bool
  | .StructType _ _ => true
  | _ => false

mutual
/-- Every entry of the tree under `d`, at any depth, with its path. -/
def listing (path : String) : DirEntry → List (String × DirEntry)
  | .file name => [(path, .file name)]
  | .dir name entries => (path, .dir name entries) :: listings path entries
/-- The entries below the directory at `path`. -/
def listings (path : String) : List DirEntry → List (String × DirEntry)
  | [] => []
  | d1 :: rest => listing (Join path d1.Name) d1 ++ listings path rest
end

/-- Every list of the unit-name bucket has a first element, as in an index
godoc built: a list comes into being with its first symbol. -/
def IndexListsNonempty (idx : Idents) : Prop :=
  ∀ bucket ∈ idx, bucket.1.Name = "Packages" → ∀ named ∈ bucket.2, named.2 ≠ []

/-- Page data as go/doc builds it: the package documentation is present,
the specs of a type declaration are type specs, and a constant declaration
has a spec. -/
def PageInfo.Complete (info : PageInfo) : Prop :=
  ∃ pdoc, info.PDoc = some pdoc ∧
    (∀ tp ∈ pdoc.Types, ∀ s ∈ tp.Decl.Specs, ∃ name type, s = Spec.TypeSpec name type) ∧
    (∀ c ∈ pdoc.Consts, c.Decl.Specs ≠ [])

/-- A corpus on which `ModuleParse` meets no run-time panic. -/
def Corpus.WellFormed (C : Corpus) : Prop :=
  IndexListsNonempty C.Idents ∧
    ∀ path pkgName info, C.GetPkgPageInfo path pkgName = some info → info.Complete

/-- An entry the output check lets pass: a directory, or an entry whose
path has the extension of a generated page. -/
def Generated (pe : String × DirEntry) : Prop :=
  pe.2.IsDir = false → Ext pe.1 = ".html"

/-- What the walk over a listing comes to: it returns when every entry is
`Generated`, and exits with status 1 when some entry is not. -/
def WalkOutcome (r : Except Halt Unit) (entries : List (String × DirEntry)) : Prop :=
  (r = .ok () ∧ ∀ pe ∈ entries, Generated pe) ∨
    (r = .error (.exit 1) ∧ ∃ pe ∈ entries, ¬ Generated pe)

/-! ## Concrete inputs -/

/-- The file of a set that holds the position `pos`. -/
def FileSet.fileOf (fset : FileSet) (pos : Nat) : Option TokenFile :=
  fset.Files.find? fun f => decide (f.Base ≤ pos) && decide (pos ≤ f.Base + f.Size)

/-- The position of a node. -/
def Node.Pos : Node → Nat
  | .StructType st => st.Pos
  | .InterfaceType it => it.Pos
  | .FuncDecl fn => fn.Pos

/-- Modelled from the spec: `CreateSnippet` and `GetDeclFile` are defined
outside `src/`. The snippet is the literal words followed by a rendering that
is left abstract here (the kind of the node); the provenance maps the
position of the node through the position-lookup table of the unit to a file
name, line and column (files taken as one line), and records the declaration
under that file name in the per-file grouping. -/
def specHelpers : Helpers where
  CreateSnippet := fun node _ words =>
    String.join words ++
      (match node with
       | .StructType _ => "struct"
       | .InterfaceType _ => "interface"
       | .FuncDecl fn => "func " ++ fn.Name)
  GetDeclFile := fun node d pkg =>
    match pkg.FileSet.fileOf node.Pos with
    | none => ({}, pkg.FileDecls)
    | some f =>
      ({ Filename := f.Name, Line := 1, Column := node.Pos - f.Base + 1 },
       mapSet pkg.FileDecls f.Name ((mapGet pkg.FileDecls f.Name).getD [] ++ [d]))

/-- The first word after the keyword on a line `module <path>`. -/
def moduleLine : List Char → Option (List Char)
  | 'm' :: 'o' :: 'd' :: 'u' :: 'l' :: 'e' :: ' ' :: rest =>
    some (rest.takeWhile fun c => c ≠ ' ' && c ≠ '\n')
  | _ => none

/-- The function `modfile.ModulePath` on a descriptor without comments,
quoting or blank lines before the directive: the path named by a leading
`module` line, and the empty text otherwise. -/
def modulePathOf (goMod : String) : String :=
  match moduleLine goMod.toList with
  | some path => ⟨path⟩
  | none => ""

/-- The unit `greet` of the end-to-end scenario: the struct `Greeting` with
the field `Text`, and `NewGreeting() Greeting`. -/
def greetingSpec : Spec :=
  .TypeSpec "Greeting" (.StructType 30 [(["Text"], .Ident "string")])

/-- The declaration of `NewGreeting`. -/
def newGreetingDecl : FuncDecl :=
  { Pos := 70, Name := "NewGreeting", Params := [], Results := [([], .Ident "Greeting")] }

/-- The page data go/doc builds for `greet`: `NewGreeting` returns the
declared type `Greeting` and is filed under that type. -/
def greetPage : PageInfo :=
  { FSet := ⟨[⟨"greet.go", 1, 120⟩]⟩
    PDoc := some
      { Doc := "Package greet greets."
        Name := "greet"
        Consts := []
        Vars := []
        Funcs := []
        Types :=
          [{ Doc := "Greeting is a greeting."
             Name := "Greeting"
             Decl := ⟨25, [greetingSpec]⟩
             Consts := []
             Vars := []
             Methods := []
             Funcs := [⟨"NewGreeting makes a Greeting.", "NewGreeting", newGreetingDecl⟩] }] } }

/-- The corpus of a module with the single unit `greet`. godoc files a unit
in the unit-name bucket under its package name and under each word of the
directory that holds it (here the empty word of the root). -/
def greetCorpus : Corpus where
  Idents :=
    [(.PackageClause,
       [("", [⟨"/greet", "greet", "greet", "Package greet greets."⟩]),
        ("greet", [⟨"/greet", "greet", "greet", "Package greet greets."⟩])]),
     (.TypeDecl, [("Greeting", [⟨"/greet", "greet", "Greeting", "Greeting is a greeting."⟩])]),
     (.FuncDecl,
       [("NewGreeting", [⟨"/greet", "greet", "NewGreeting", "NewGreeting makes a Greeting."⟩])])]
  GetPkgPageInfo := fun path pkgName =>
    if path = "/greet" ∧ pkgName = "greet" then some greetPage else none
  ReadFile := fun path =>
    if path = "/home/u/proj/go.mod" then some "module example.org/proj\n" else none
  ModulePath := modulePathOf

/-- The type declarations of a unit holding `type T struct { X int }` and
`type B T`. -/
def namedStructDecls : List (String × Expr) :=
  [("T", .StructType 10 [(["X"], .Ident "int")]), ("B", .Ident "T")]

/-- The declaration of a top-level function `name` at position 40. -/
def plainFunc (name : String) : DocFunc :=
  ⟨"", name, { Pos := 40, Name := name, Params := [], Results := [([], .Ident "string")] }⟩

/-- The page data of a unit of the package `api` with the one top-level
function `fn`. -/
def apiPage (fn : String) : PageInfo :=
  { FSet := ⟨[⟨"api.go", 1, 90⟩]⟩
    PDoc := some
      { Doc := "", Name := "api", Consts := [], Vars := [], Types := [], Funcs := [plainFunc fn] } }

/-- The corpus of a module with two units of the package name `api`, at
`/api/v1` (exporting `Pad`) and at `/api/v2` (exporting `Foo`). The words of
both units are the same (the root, the directory `api`, the name `api`), so
every list of the unit-name bucket holds both, `/api/v1` first. -/
def apiCorpus : Corpus where
  Idents :=
    [(.PackageClause,
       [("", [⟨"/api/v1", "api", "api", ""⟩, ⟨"/api/v2", "api", "api", ""⟩]),
        ("api", [⟨"/api/v1", "api", "api", ""⟩, ⟨"/api/v2", "api", "api", ""⟩])]),
     (.FuncDecl,
       [("Pad", [⟨"/api/v1", "api", "Pad", ""⟩]), ("Foo", [⟨"/api/v2", "api", "Foo", ""⟩])])]
  GetPkgPageInfo := fun path pkgName =>
    if path = "/api/v1" ∧ pkgName = "api" then some (apiPage "Pad")
    else if path = "/api/v2" ∧ pkgName = "api" then some (apiPage "Foo")
    else none
  ReadFile := fun _ => none
  ModulePath := modulePathOf

/-- A world with the working directory `/home/u/proj`, which holds `go.mod`
and no output directory yet; the corpus at every root is `corpus`. -/
def projWorld (corpus : Corpus) : World where
  Getwd := some "/home/u/proj"
  Stat := fun path =>
    if path = "/home/u/proj" then some true
    else if path = "/home/u/proj/go.mod" then some false
    else none
  WalkTree := fun _ => none
  CorpusAt := fun _ => corpus
  ListenOK := true

/-- The world of `projWorld` with an output directory `/home/u/proj/dist`
holding `tree`. -/
def distWorld (corpus : Corpus) (tree : List DirEntry) : World where
  Getwd := some "/home/u/proj"
  Stat := fun path =>
    if path = "/home/u/proj" ∨ path = "/home/u/proj/dist" then some true
    else if path = "/home/u/proj/go.mod" then some false
    else none
  WalkTree := fun path =>
    if path = "/home/u/proj/dist" then some (.dir "dist" tree) else none
  CorpusAt := fun _ => corpus
  ListenOK := true

/-! ## Lemmas: maps -/

theorem mapGet_mapSet {ν : Type} (m : List (String × ν)) (k k' : String) (v : ν) :
    mapGet (mapSet m k v) k' = if k = k' then some v else mapGet m k' := by
  induction m with
  | nil =>
    by_cases h : k = k' <;> simp [mapSet, mapGet, h]
  | cons e rest ih =>
    obtain ⟨k0, v0⟩ := e
    by_cases h0 : k0 = k
    · subst h0
      by_cases h : k0 = k' <;> simp [mapSet, mapGet, h]
    · by_cases h : k = k'
      · subst h
        simp [mapSet, mapGet, h0, ih]
      · by_cases h1 : k0 = k'
        · subst h1
          simp [mapSet, mapGet, h0, h]
        · simp [mapSet, mapGet, h0, h, h1, ih]

/-! ## Lemmas: the scan of the identifier index -/

theorem name_eq_packages (kind : SpotKind) :
    kind.Name = "Packages" ↔ kind = SpotKind.PackageClause := by
  cases kind <;> decide

theorem scopedId_eq (kind : SpotKind) (n : String) (symbol : Ident) :
    ({ PackagePath := symbol.Path
       Name := n
       IsFunction := kind == SpotKind.FuncDecl
       IsMethod := kind == SpotKind.MethodDecl
       isType := kind == SpotKind.TypeDecl } : ScopedIdentifier) = scopedOf kind n symbol := by
  cases kind <;> rfl

theorem appendSymTable_get (kind : SpotKind) (name n : String) (symTable : List Ident)
    (exports : SimpleExportsByType) :
    (mapGet (appendSymTable kind name exports symTable) n).getD [] =
      (mapGet exports n).getD [] ++
        (if name = n then symTable.map (scopedOf kind n) else []) := by
  induction symTable generalizing exports with
  | nil => simp [appendSymTable]
  | cons symbol rest ih =>
    simp only [appendSymTable]
    rw [ih, mapGet_mapSet, scopedId_eq]
    by_cases h : name = n
    · subst h
      simp
    · simp [h]

theorem appendSymbols_get (kind : SpotKind) (n : String)
    (symbols : List (String × List Ident)) (exports : SimpleExportsByType) :
    (mapGet (appendSymbols kind exports symbols) n).getD [] =
      (mapGet exports n).getD [] ++
        symbols.flatMap (fun named =>
          if named.1 = n then named.2.map (scopedOf kind n) else []) := by
  induction symbols generalizing exports with
  | nil => simp [appendSymbols]
  | cons named rest ih =>
    obtain ⟨name, symTable⟩ := named
    simp only [appendSymbols]
    rw [ih, appendSymTable_get]
    simp [List.flatMap_cons]

theorem scanIdents_get (n : String) (idx : Idents) (pkgList : List (String × String))
    (exports : SimpleExportsByType) (pkgList' : List (String × String))
    (exports' : SimpleExportsByType)
    (h : scanIdents pkgList exports idx = .ok (pkgList', exports')) :
    (mapGet exports' n).getD [] = (mapGet exports n).getD [] ++ crossRefsOf idx n := by
  induction idx generalizing pkgList exports with
  | nil =>
    simp only [scanIdents, Except.ok.injEq, Prod.mk.injEq] at h
    obtain ⟨_, rfl⟩ := h
    simp [crossRefsOf]
  | cons bucket rest ih =>
    obtain ⟨kind, symbols⟩ := bucket
    simp only [scanIdents] at h
    by_cases hk : kind.Name = "Packages"
    · rw [if_pos hk] at h
      have hk' := (name_eq_packages kind).1 hk
      cases hs : scanPackages pkgList symbols with
      | error e => rw [hs] at h; cases h
      | ok pk =>
        rw [hs] at h
        have := ih _ _ h
        rw [this]
        simp [crossRefsOf, List.flatMap_cons, hk']
    · rw [if_neg hk] at h
      have hk' : ¬ kind = SpotKind.PackageClause := fun e => hk ((name_eq_packages kind).2 e)
      have := ih _ _ h
      rw [this, appendSymbols_get]
      simp [crossRefsOf, List.flatMap_cons, hk']

/-! ## Lemmas: `ModuleParse` returns on a well-formed corpus -/

theorem scanPackages_ok (symbols : List (String × List Ident))
    (h : ∀ named ∈ symbols, named.2 ≠ []) (pkgList : List (String × String)) :
    ∃ pkgList', scanPackages pkgList symbols = .ok pkgList' := by
  induction symbols generalizing pkgList with
  | nil => exact ⟨_, rfl⟩
  | cons named rest ih =>
    obtain ⟨name, sym⟩ := named
    cases sym with
    | nil => exact absurd rfl (h (name, []) (List.mem_cons_self _ _))
    | cons sym0 more =>
      simp only [scanPackages]
      exact ih (fun x hx => h x (List.mem_cons_of_mem _ hx)) _

theorem scanIdents_ok (idx : Idents) (h : IndexListsNonempty idx)
    (pkgList : List (String × String)) (exports : SimpleExportsByType) :
    ∃ r, scanIdents pkgList exports idx = .ok r := by
  induction idx generalizing pkgList exports with
  | nil => exact ⟨_, rfl⟩
  | cons bucket rest ih =>
    obtain ⟨kind, symbols⟩ := bucket
    have hrest : IndexListsNonempty rest := fun b hb => h b (List.mem_cons_of_mem _ hb)
    simp only [scanIdents]
    by_cases hk : kind.Name = "Packages"
    · rw [if_pos hk]
      obtain ⟨pk, hpk⟩ :=
        scanPackages_ok symbols (h (kind, symbols) (List.mem_cons_self _ _) hk) pkgList
      rw [hpk]
      exact ih hrest _ _
    · rw [if_neg hk]
      exact ih hrest _ _

theorem parseSpecs_ok (H : Helpers) (specs : List Spec)
    (h : ∀ s ∈ specs, ∃ name type, s = Spec.TypeSpec name type) (pkg : PackageDoc) :
    ∃ pkg', parseSpecs H pkg specs = .ok pkg' := by
  induction specs generalizing pkg with
  | nil => exact ⟨_, rfl⟩
  | cons s rest ih =>
    obtain ⟨name, type, rfl⟩ := h s (List.mem_cons_self _ _)
    have hrest := fun x hx => h x (List.mem_cons_of_mem _ hx)
    simp only [parseSpecs]
    cases type <;> simp only [ParseTypeDecl] <;> exact ih hrest _

theorem parseTypes_ok (H : Helpers) (types : List DocType)
    (h : ∀ tp ∈ types, ∀ s ∈ tp.Decl.Specs, ∃ name type, s = Spec.TypeSpec name type)
    (pkg : PackageDoc) :
    ∃ pkg', parseTypes H pkg types = .ok pkg' := by
  induction types generalizing pkg with
  | nil => exact ⟨_, rfl⟩
  | cons tp rest ih =>
    simp only [parseTypes]
    obtain ⟨p1, hp1⟩ := parseSpecs_ok H tp.Decl.Specs (h tp (List.mem_cons_self _ _)) pkg
    rw [hp1]
    exact ih (fun x hx => h x (List.mem_cons_of_mem _ hx)) _

theorem inspectConsts_ok (consts : List DocValue) (h : ∀ c ∈ consts, c.Decl.Specs ≠ []) :
    inspectConsts consts = .ok () := by
  induction consts with
  | nil => rfl
  | cons c rest ih =>
    simp only [inspectConsts]
    cases hc : c.Decl.Specs with
    | nil => exact absurd hc (h c (List.mem_cons_self _ _))
    | cons s more => exact ih (fun x hx => h x (List.mem_cons_of_mem _ hx))

theorem parsePackages_ok (C : Corpus) (H : Helpers) (modFilePath : String)
    (h : ∀ path pkgName info, C.GetPkgPageInfo path pkgName = some info → info.Complete)
    (pkgList : List (String × String)) (packages : List PackageDoc) :
    ∃ packages', parsePackages C H modFilePath packages pkgList = .ok packages' := by
  induction pkgList generalizing packages with
  | nil => exact ⟨_, rfl⟩
  | cons unit rest ih =>
    obtain ⟨path, pkgName⟩ := unit
    simp only [parsePackages]
    cases hi : C.GetPkgPageInfo path pkgName with
    | none => exact ih _
    | some info =>
      obtain ⟨pdoc, hp, htypes, hconsts⟩ := h path pkgName info hi
      simp only [hp]
      obtain ⟨wt, hwt⟩ := parseTypes_ok H pdoc.Types htypes
        { AbsolutePath := Join modFilePath (TrimPrefix path), FileSet := info.FSet,
          RelativePath := path, Name := pkgName, Doc := pdoc.Doc }
      rw [hwt]
      simp only [inspectConsts_ok pdoc.Consts hconsts]
      exact ih _

theorem ModuleParse_ok (C : Corpus) (H : Helpers) (modFilePath : String)
    (hwf : C.WellFormed) :
    ∃ pkgList exports packages,
      scanIdents [] [] C.Idents = .ok (pkgList, exports) ∧
      parsePackages C H modFilePath [] pkgList = .ok packages ∧
      ModuleParse C H modFilePath =
        .ok { AbsolutePath := modFilePath
              ImportPath := C.ModulePath ((C.ReadFile (Join modFilePath "go.mod")).getD "")
              Packages := packages
              SimpleExports := exports } := by
  obtain ⟨⟨pkgList, exports⟩, hs⟩ := scanIdents_ok C.Idents hwf.1 [] []
  obtain ⟨packages, hp⟩ := parsePackages_ok C H modFilePath hwf.2 pkgList []
  refine ⟨pkgList, exports, packages, hs, hp, ?_⟩
  simp only [ModuleParse, hs, hp]

/-! ## Lemmas: the walk over the output directory -/

mutual
theorem walkDir_outcome (path : String) :
    ∀ d : DirEntry, WalkOutcome (walkDir path d) (listing path d)
  | .file name => by
    by_cases h : Ext path = ".html"
    · left
      simp [walkDir, listing, Generated, h]
    · right
      simp [walkDir, listing, Generated, h, DirEntry.IsDir]
  | .dir name entries => by
    rcases walkDirs_outcome path entries with ⟨hr, hall⟩ | ⟨hr, pe, hpe, hbad⟩
    · left
      refine ⟨by simpa [walkDir] using hr, ?_⟩
      intro pe hpe
      simp only [listing, List.mem_cons] at hpe
      rcases hpe with rfl | hpe
      · intro hdir
        simp [DirEntry.IsDir] at hdir
      · exact hall pe hpe
    · right
      refine ⟨by simpa [walkDir] using hr, pe, ?_, hbad⟩
      simp only [listing, List.mem_cons]
      exact Or.inr hpe
theorem walkDirs_outcome (path : String) :
    ∀ entries : List DirEntry, WalkOutcome (walkDirs path entries) (listings path entries)
  | [] => by
    left
    simp [walkDirs, listings]
  | d1 :: rest => by
    rcases walkDir_outcome (Join path d1.Name) d1 with ⟨h1, hall1⟩ | ⟨h1, pe, hpe, hbad⟩
    · rcases walkDirs_outcome path rest with ⟨h2, hall2⟩ | ⟨h2, pe, hpe, hbad⟩
      · left
        refine ⟨by simp [walkDirs, h1, h2], ?_⟩
        intro pe hpe
        simp only [listings, List.mem_append] at hpe
        rcases hpe with hpe | hpe
        · exact hall1 pe hpe
        · exact hall2 pe hpe
      · right
        refine ⟨by simp [walkDirs, h1, h2], pe, ?_, hbad⟩
        simp only [listings, List.mem_append]
        exact Or.inr hpe
    · right
      refine ⟨by simp [walkDirs, h1], pe, ?_, hbad⟩
      simp only [listings, List.mem_append]
      exact Or.inl hpe
end

theorem walkDir_ok_iff (path : String) (d : DirEntry) :
    walkDir path d = .ok () ↔ ∀ pe ∈ listing path d, Generated pe := by
  rcases walkDir_outcome path d with ⟨hr, hall⟩ | ⟨hr, pe, hpe, hbad⟩
  · exact ⟨fun _ => hall, fun _ => hr⟩
  · constructor
    · intro h
      rw [hr] at h
      cases h
    · intro h
      exact absurd (h pe hpe) hbad

theorem walkDir_exit_iff (path : String) (d : DirEntry) :
    walkDir path d = .error (.exit 1) ↔ ∃ pe ∈ listing path d, ¬ Generated pe := by
  rcases walkDir_outcome path d with ⟨hr, hall⟩ | ⟨hr, pe, hpe, hbad⟩
  · constructor
    · intro h
      rw [hr] at h
      cases h
    · rintro ⟨pe, hpe, hbad⟩
      exact absurd (hall pe hpe) hbad
  · exact ⟨fun _ => ⟨pe, hpe, hbad⟩, fun _ => hr⟩

/-! ## Lemmas: the concrete inputs are well formed -/

theorem greetCorpus_wellFormed : greetCorpus.WellFormed := by
  constructor
  · intro bucket hb hk named hn
    simp only [greetCorpus, List.mem_cons, List.mem_singleton, List.not_mem_nil, or_false] at hb
    rcases hb with rfl | rfl | rfl
    · simp only [List.mem_cons, List.mem_singleton, List.not_mem_nil, or_false] at hn
      rcases hn with rfl | rfl <;> simp
    · exact absurd hk (by decide)
    · exact absurd hk (by decide)
  · intro path pkgName info hi
    simp only [greetCorpus] at hi
    split at hi
    · cases hi
      refine ⟨_, rfl, ?_, ?_⟩
      · intro tp htp s hs
        simp only [List.mem_singleton] at htp
        subst htp
        simp only [List.mem_singleton] at hs
        subst hs
        exact ⟨_, _, rfl⟩
      · intro c hc
        cases hc
    · cases hi

theorem apiPage_complete (fn : String) : (apiPage fn).Complete := by
  refine ⟨_, rfl, ?_, ?_⟩
  · intro tp htp
    cases htp
  · intro c hc
    cases hc

theorem apiCorpus_wellFormed : apiCorpus.WellFormed := by
  constructor
  · intro bucket hb hk named hn
    simp only [apiCorpus, List.mem_cons, List.mem_singleton, List.not_mem_nil, or_false] at hb
    rcases hb with rfl | rfl
    · simp only [List.mem_cons, List.mem_singleton, List.not_mem_nil, or_false] at hn
      rcases hn with rfl | rfl <;> simp
    · exact absurd hk (by decide)
  · intro path pkgName info hi
    simp only [apiCorpus] at hi
    split at hi
    · cases hi
      exact apiPage_complete _
    · split at hi
      · cases hi
        exact apiPage_complete _
      · cases hi

/-! ## The claims -/

/-- C1: on a corpus that `ModuleParse` can process, `ModuleParse` returns a
document whose list `SimpleExports[n]` is, for every name `n`, exactly the
list of one `ScopedIdentifier` per symbol entry filed under `n` in a bucket
other than `Packages` (path of the symbol, name `n`, flags by bucket kind), in
index order: nothing merged, nothing dropped, nothing from `Packages`. -/
theorem ModuleParse_simpleExports_exact (C : Corpus) (H : Helpers) (modFilePath : String)
    (hwf : C.WellFormed) :
    ∃ doc, ModuleParse C H modFilePath = .ok doc ∧
      ∀ n, (mapGet doc.SimpleExports n).getD [] = crossRefsOf C.Idents n := by
  obtain ⟨pkgList, exports, packages, hs, _, hm⟩ := ModuleParse_ok C H modFilePath hwf
  refine ⟨_, hm, ?_⟩
  intro n
  have := scanIdents_get n C.Idents [] [] pkgList exports hs
  simpa [mapGet] using this

/-- Witness of C1 on the module with the single unit `greet`. -/
theorem ModuleParse_simpleExports_exact_witness :
    greetCorpus.WellFormed ∧
      ∃ doc, ModuleParse greetCorpus specHelpers "/home/u/proj" = .ok doc ∧
        ∀ n, (mapGet doc.SimpleExports n).getD [] = crossRefsOf greetCorpus.Idents n :=
  ⟨greetCorpus_wellFormed,
    ModuleParse_simpleExports_exact greetCorpus specHelpers "/home/u/proj" greetCorpus_wellFormed⟩

/-- C2, the claim refuted: in a unit declaring `type T struct { X int }` and
`type B T`, the underlying type of `B` is a struct type, and so is that of
`type PS (struct { X int })`; on either type spec `ParseTypeDecl` leaves the
`PackageDoc` unchanged and appends no `StructDef`. -/
theorem ParseTypeDecl_ignores_named_struct :
    (underlying namedStructDecls 2 (.Ident "T")).isStruct = true ∧
      ParseTypeDecl specHelpers (.TypeSpec "B" (.Ident "T")) {} = .ok {} ∧
      (underlying namedStructDecls 2
        (.ParenExpr (.StructType 10 [(["X"], .Ident "int")]))).isStruct = true ∧
      ParseTypeDecl specHelpers
        (.TypeSpec "PS" (.ParenExpr (.StructType 10 [(["X"], .Ident "int")]))) {} = .ok {} ∧
      (({} : PackageDoc).Structs.map (·.Name)) = [] :=
  ⟨rfl, rfl, rfl, rfl, rfl⟩

/-- C2 as amended: `ParseTypeDecl` on a type spec returns, and it classifies
by the type expression as written in the declaration: when that expression is
itself a struct type it appends exactly one `StructDef` named after the
declaration to `Structs` and leaves `Interfaces` and `Functions` as they were;
when it is itself an interface type it appends exactly one `InterfaceDef`
named after the declaration to `Interfaces` and leaves `Structs` and
`Functions` as they were; for any other written expression (a type name,
whatever it denotes, a parenthesised type, a function type, ...) the
`PackageDoc` is unchanged. -/
theorem ParseTypeDecl_classifies (H : Helpers) (declName : String) (type : Expr)
    (pkg : PackageDoc) :
    ∃ pkg', ParseTypeDecl H (.TypeSpec declName type) pkg = .ok pkg' ∧
      match type with
      | .StructType pos fields =>
        (∃ sDef : StructDef, sDef.Name = declName ∧ sDef.Typ = some ⟨pos, fields⟩ ∧
          pkg'.Structs = pkg.Structs ++ [sDef]) ∧
        pkg'.Interfaces = pkg.Interfaces ∧ pkg'.Functions = pkg.Functions
      | .InterfaceType pos methods =>
        (∃ interDef : InterfaceDef, interDef.Name = declName ∧
          interDef.Typ = some ⟨pos, methods⟩ ∧
          pkg'.Interfaces = pkg.Interfaces ++ [interDef]) ∧
        pkg'.Structs = pkg.Structs ∧ pkg'.Functions = pkg.Functions
      | _ => pkg' = pkg := by
  cases type with
  | StructType pos fields =>
    exact ⟨_, rfl, ⟨_, rfl, rfl, rfl⟩, rfl, rfl⟩
  | InterfaceType pos methods =>
    exact ⟨_, rfl, ⟨_, rfl, rfl, rfl⟩, rfl, rfl⟩
  | Ident name => exact ⟨_, rfl, rfl⟩
  | StarExpr x => exact ⟨_, rfl, rfl⟩
  | ArrayType elt => exact ⟨_, rfl, rfl⟩
  | MapType k v => exact ⟨_, rfl, rfl⟩
  | ChanType v => exact ⟨_, rfl, rfl⟩
  | SelectorExpr x sel => exact ⟨_, rfl, rfl⟩
  | ParenExpr x => exact ⟨_, rfl, rfl⟩
  | FuncType pos params results => exact ⟨_, rfl, rfl⟩

/-- C5: when the output path is an existing directory, `cliParse` exits with
status 1, before `ModuleParse` runs and with no effect, if the tree holds at
any depth a non-directory entry whose extension is not `.html`; and when the
directory is empty or every non-directory entry in it has the extension
`.html`, the check passes and `cliParse` goes on to the module: it parses the
resolved root and stores the document. -/
theorem cliParse_output_check (W : World) (H : Helpers) (cli : CliArgs) (out name : String)
    (entries : List DirEntry)
    (habs : Abs W cli.Out = some out) (hstat : W.Stat out = some true)
    (htree : W.WalkTree out = some (.dir name entries)) :
    ((∃ pe ∈ listings out entries, pe.2.IsDir = false ∧ Ext pe.1 ≠ ".html") →
        cliParse W H cli = .error (.exit 1)) ∧
      ((∀ pe ∈ listings out entries, pe.2.IsDir = false → Ext pe.1 = ".html") →
        checkOut W out = .ok () ∧
        ∀ root doc, moduleRoot W cli.Module = .ok root →
          ModuleParse (W.CorpusAt root) H root = .ok doc →
          cliParse W H cli =
            .ok { Cli := { cli with Out := out }, _modDoc := some doc,
                  Events := [.ModuleParse root] }) := by
  have hcheck : checkOut W out = walkDirs out entries := by
    simp [checkOut, hstat, WalkDir, htree, walkDir]
  constructor
  · rintro ⟨pe, hpe, hfile, hext⟩
    have hbad : ¬ Generated pe := fun g => hext (g hfile)
    have hexit : walkDirs out entries = .error (.exit 1) := by
      rcases walkDirs_outcome out entries with ⟨_, hall⟩ | ⟨hr, _⟩
      · exact absurd (hall pe hpe) hbad
      · exact hr
    simp [cliParse, habs, hcheck, hexit]
  · intro hall
    have hok : walkDirs out entries = .ok () := by
      rcases walkDirs_outcome out entries with ⟨hr, _⟩ | ⟨_, pe, hpe, hbad⟩
      · exact hr
      · exact absurd (hall pe hpe) hbad
    refine ⟨by rw [hcheck, hok], ?_⟩
    intro root doc hroot hdoc
    simp [cliParse, habs, hcheck, hok, hroot, hdoc]

/-- Witness of C5: an output directory holding `index.html` and, one level
down, `pkg/notes.txt`; the run exits with status 1. -/
theorem cliParse_output_check_witness :
    Abs (distWorld greetCorpus [.file "index.html", .dir "pkg" [.file "notes.txt"]]) "dist" =
        some "/home/u/proj/dist" ∧
      cliParse (distWorld greetCorpus [.file "index.html", .dir "pkg" [.file "notes.txt"]])
        specHelpers { Out := "dist", Module := "." } = .error (.exit 1) :=
  ⟨by decide,
    (cliParse_output_check
      (distWorld greetCorpus [.file "index.html", .dir "pkg" [.file "notes.txt"]])
      specHelpers { Out := "dist", Module := "." } "/home/u/proj/dist" "dist"
      [.file "index.html", .dir "pkg" [.file "notes.txt"]] (by decide) (by decide) rfl).1
      ⟨("/home/u/proj/dist/pkg/notes.txt", .file "notes.txt"),
        by
          have h : listings "/home/u/proj/dist"
              [.file "index.html", .dir "pkg" [.file "notes.txt"]] =
              [("/home/u/proj/dist/index.html", .file "index.html"),
               ("/home/u/proj/dist/pkg", .dir "pkg" [.file "notes.txt"]),
               ("/home/u/proj/dist/pkg/notes.txt", .file "notes.txt")] := by
            simp only [listings, listing, DirEntry.Name, List.cons_append, List.nil_append,
              List.append_nil]
            have j1 : Join "/home/u/proj/dist" "index.html" = "/home/u/proj/dist/index.html" := by
              decide
            have j2 : Join "/home/u/proj/dist" "pkg" = "/home/u/proj/dist/pkg" := by decide
            have j3 : Join "/home/u/proj/dist/pkg" "notes.txt" =
                "/home/u/proj/dist/pkg/notes.txt" := by decide
            rw [j1, j2, j3]
          rw [h]
          simp,
        rfl, by decide⟩⟩

/-- C3 at a failing input: in the unit `/api/v1` the provenance resolver
returns `api.go`, line 1, column 40 for the declaration of `Pad`, and the
`FunctionDef` of `Pad` stored in `Functions` has the zero `FoundInFile`: line
152 stores the copy before line 153 assigns the field. -/
theorem ModuleParse_function_foundInFile_unset :
    ∃ doc pkg fn, ModuleParse apiCorpus specHelpers "/m" = .ok doc ∧
      doc.Packages = [pkg] ∧ pkg.Functions = [fn] ∧ fn.Name = "Pad" ∧
      fn.FoundInFile = {} ∧
      (specHelpers.GetDeclFile (.FuncDecl (plainFunc "Pad").Decl) fn.toBaseDef pkg).1 =
        { Filename := "api.go", Line := 1, Column := 40 } :=
  ⟨_, _, _, rfl, rfl, rfl, rfl, rfl, by decide⟩

/-- C4 at a failing input: the unit-name bucket records the units `/api/v1`
and `/api/v2` under the one name `api`, page data is available for both, and
the document holds a `PackageDoc` for `/api/v1` only: line 102 reads the first
symbol of each list. -/
theorem ModuleParse_same_name_unit_dropped :
    (∃ symbols sym, (SpotKind.PackageClause, symbols) ∈ apiCorpus.Idents ∧
        ("api", sym) ∈ symbols ∧ sym.map (·.Path) = ["/api/v1", "/api/v2"]) ∧
      (apiCorpus.GetPkgPageInfo "/api/v2" "api").isSome = true ∧
      ∃ doc, ModuleParse apiCorpus specHelpers "/m" = .ok doc ∧
        doc.Packages.map (·.RelativePath) = ["/api/v1"] :=
  ⟨⟨_, _, List.mem_cons_self _ _, List.mem_cons_of_mem _ (List.mem_cons_self _ _), rfl⟩,
    rfl, _, rfl, rfl⟩

/-- C6, the claim refuted: the server starts on the module with the unit
`greet`; at the time of a request the source tree holds the units of
`apiCorpus`, for which `ModuleParse` gives another document; the handler
runs no `ModuleParse` and renders the document built at start-up. -/
theorem handleRoot_renders_stale_doc :
    ∃ p doc0 doc1,
      main (projWorld greetCorpus) specHelpers { Module := ".", StartServer := true } = .ok p ∧
      p._modDoc = some doc0 ∧
      ModuleParse ((projWorld apiCorpus).CorpusAt "/home/u/proj") specHelpers "/home/u/proj" =
        .ok doc1 ∧
      doc0.Packages.map (·.Name) = ["greet"] ∧ doc1.Packages.map (·.Name) = ["api"] ∧
      (handleRoot (projWorld apiCorpus) p "/").Events =
        p.Events ++ [.GenerateHTML (some doc0), .ServeFile "/home/u/proj/dist" "/"] ∧
      p.Events = [.ModuleParse "/home/u/proj", .GenerateHTML (some doc0)] :=
  ⟨_, _, _, rfl, rfl, rfl, rfl, rfl, rfl, rfl⟩

/-- C6 as amended: in server mode each request handled at the root path
renders the `ModuleDoc` held in `_modDoc`, the one built at start-up, and then
serves the output directory; whatever the source tree is at the time of the
requests, no request runs `ModuleParse` and `_modDoc` stays the same. -/
theorem serve_renders_startup_doc (p : Process) (requests : List (World × String)) :
    (serve p requests)._modDoc = p._modDoc ∧
      (serve p requests).Cli = p.Cli ∧
      (serve p requests).Events =
        p.Events ++ requests.flatMap fun r =>
          [Event.GenerateHTML p._modDoc, Event.ServeFile p.Cli.Out r.2] := by
  induction requests generalizing p with
  | nil => simp [serve]
  | cons r rest ih =>
    obtain ⟨W, requestPath⟩ := r
    obtain ⟨h1, h2, h3⟩ := ih (handleRoot W p requestPath)
    refine ⟨?_, ?_, ?_⟩
    · simpa [serve, handleRoot] using h1
    · simpa [serve, handleRoot] using h2
    · simp only [serve, h3]
      simp [handleRoot, List.flatMap_cons]

/-- C7 at a failing input: with the units `/api/v1` and `/api/v2` filed under
the one name `api`, the unit list built from the `Packages` bucket has the
key `/api/v1` only, the cross-reference index has the key `Foo`, and no
`ScopedIdentifier` under `Foo` names a unit of the unit list. -/
theorem simpleExports_key_without_discovered_unit :
    ∃ doc pkgList, ModuleParse apiCorpus specHelpers "/m" = .ok doc ∧
      scanIdents [] [] apiCorpus.Idents = .ok (pkgList, doc.SimpleExports) ∧
      mapKeys pkgList = ["/api/v1"] ∧
      mapGet doc.SimpleExports "Foo" =
        some [{ PackagePath := "/api/v2", Name := "Foo", IsFunction := true,
                IsMethod := false, isType := false }] ∧
      ∀ s ∈ (mapGet doc.SimpleExports "Foo").getD [], s.PackagePath ∉ mapKeys pkgList :=
  ⟨_, [("/api/v1", "api")], rfl, rfl, rfl, rfl, by decide⟩

/-- C8, the claim refuted: no file can be read at the root `/m`, and
`ModuleParse` returns a `ModuleDoc`, whose `ImportPath` is empty. -/
theorem ModuleParse_returns_without_descriptor :
    apiCorpus.ReadFile (Join "/m" "go.mod") = none ∧
      ∃ doc, ModuleParse apiCorpus specHelpers "/m" = .ok doc ∧ doc.ImportPath = "" ∧
        doc.AbsolutePath = "/m" :=
  ⟨rfl, _, rfl, rfl, rfl⟩

/-- C8 as amended: when the module root has no readable descriptor file,
`ModuleParse` does not terminate the run on that account: on a corpus it can
process it returns a `ModuleDoc` whose `ImportPath` is what
`modfile.ModulePath` gives for an empty buffer and whose `AbsolutePath` is the
root, with the cross-reference index built as usual. -/
theorem ModuleParse_unreadable_descriptor (C : Corpus) (H : Helpers) (modFilePath : String)
    (hwf : C.WellFormed) (hread : C.ReadFile (Join modFilePath "go.mod") = none) :
    ∃ doc, ModuleParse C H modFilePath = .ok doc ∧
      doc.ImportPath = C.ModulePath "" ∧ doc.AbsolutePath = modFilePath ∧
      ∀ n, (mapGet doc.SimpleExports n).getD [] = crossRefsOf C.Idents n := by
  obtain ⟨pkgList, exports, packages, hs, _, hm⟩ := ModuleParse_ok C H modFilePath hwf
  refine ⟨_, hm, ?_, rfl, ?_⟩
  · simp [hread]
  · intro n
    have := scanIdents_get n C.Idents [] [] pkgList exports hs
    simpa [mapGet] using this

/-- Witness of the amended C8 on the module of `apiCorpus`, where no file
can be read. -/
theorem ModuleParse_unreadable_descriptor_witness :
    apiCorpus.WellFormed ∧ apiCorpus.ReadFile (Join "/m" "go.mod") = none ∧
      ∃ doc, ModuleParse apiCorpus specHelpers "/m" = .ok doc ∧
        doc.ImportPath = apiCorpus.ModulePath "" ∧ doc.AbsolutePath = "/m" ∧
        ∀ n, (mapGet doc.SimpleExports n).getD [] = crossRefsOf apiCorpus.Idents n :=
  ⟨apiCorpus_wellFormed, rfl,
    ModuleParse_unreadable_descriptor apiCorpus specHelpers "/m" apiCorpus_wellFormed rfl⟩

/-- C9 at a failing input: for the unit `greet` with the struct `Greeting`
and the function `NewGreeting() Greeting`, which go/doc files under the type
`Greeting`, the `PackageDoc` has the `StructDef` named `Greeting` and no
`FunctionDef` at all: lines 140 to 154 read `tp.Decl.Specs` and
`info.PDoc.Funcs`, never `tp.Funcs`. -/
theorem ModuleParse_constructor_not_listed :
    (∃ pdoc tp, greetPage.PDoc = some pdoc ∧ pdoc.Types = [tp] ∧
        tp.Funcs.map (·.Name) = ["NewGreeting"]) ∧
      ∃ doc pkg, ModuleParse greetCorpus specHelpers "/home/u/proj" = .ok doc ∧
        doc.Packages = [pkg] ∧ pkg.Structs.map (·.Name) = ["Greeting"] ∧
        pkg.Functions = [] :=
  ⟨⟨_, _, rfl, rfl, rfl⟩, _, _, rfl, rfl, rfl, rfl⟩

/-- C10 at a failing input: in the working directory `/home/u/proj` the
module argument `go.mod`, a file given by a relative path, is accepted, and
the root handed to `ModuleParse` is `.`; `ModuleDoc.AbsolutePath` is `.` and
the `AbsolutePath` of the unit `greet` is `greet`, neither absolute: line 65
takes the directory of `Cli.Module`, not of `absModPath`. -/
theorem cliParse_relative_file_root :
    ∃ p doc, cliParse (projWorld greetCorpus) specHelpers { Module := "go.mod" } = .ok p ∧
      p.Events = [.ModuleParse "."] ∧ p._modDoc = some doc ∧
      doc.AbsolutePath = "." ∧ IsAbs doc.AbsolutePath = false ∧
      doc.Packages.map (·.AbsolutePath) = ["greet"] ∧
      doc.Packages.map (fun pkg => IsAbs pkg.AbsolutePath) = [false] :=
  ⟨_, _, rfl, rfl, rfl, rfl, rfl, rfl, rfl⟩

end Newgodoc
